import Mathlib

/-!
Verification of the gdext code-generation pipeline for engine enums and
central files (godot-codegen/src/generator/enums.rs and central_files.rs).

The generator consumes a domain model (`Enum`, `Enumerator`, `ExtensionApi`)
and emits Rust token streams.  This development embeds (a) the generator
functions themselves where they branch and can abort (assertions / `expect`
panics become `Except String`), and (b) the run-time semantics of the token
streams they emit: the generated `try_from_ord`, `ord`, `as_str`,
`godot_name`, `Debug` and bitwise-`BitOr` implementations, specialized per
enum kind exactly as the `quote!` templates in the source produce them.
-/

/-- Value carried by one enumerator: a plain ordinal (Rust `i32`) for enums,
or a bit value (Rust `u64`) for bitfields.  Mirrors `EnumeratorValue` from
the domain model as used in `generator/enums.rs` (`EnumeratorValue::Enum`
destructuring at the exhaustive branch). -/
inductive EnumeratorValue where
  | enum (ord : Int)
  | bitfield (ord : Nat)
deriving DecidableEq, Repr

/-- One member of an enum/bitfield (domain model `Enumerator`):
target-language name, source (Godot) name, and value. -/
structure Enumerator where
  name : String
  godot_name : String
  value : EnumeratorValue
deriving DecidableEq, Repr

/-- One engine-defined enumeration or bitfield (domain model `Enum`), with
the attributes the two generator files consult. -/
structure Enum where
  name : String
  godot_name : String
  is_bitfield : Bool
  is_exhaustive : Bool
  is_private : Bool
  enumerators : List Enumerator
deriving DecidableEq, Repr

/-- The ordinal of an enumerator when it is enum-tagged (`i32`). -/
def Enumerator.enumOrd (en : Enumerator) : Option Int :=
  match en.value with
  | .enum o => some o
  | .bitfield _ => none

/-- Modelled from the spec: `Enum::unique_ords` lives in the domain model
file (models/domain/enums.rs), which is not part of the analysed sources;
only its call site `enum_.unique_ords().expect("self is an enum")` is.
Per the spec, ordinal-to-value conversion of a non-exhaustive enum succeeds
exactly for the ordinals of its enumerators (duplicates being legitimate
aliases), so `unique_ords` is the deduplicated list of enum-tagged ordinals
and is unavailable (the `expect` fires) when an enumerator is
bitfield-tagged. -/
def unique_ords (e : Enum) : Option (List Int) :=
  if e.enumerators.all (fun en => en.enumOrd.isSome) then
    some (e.enumerators.filterMap Enumerator.enumOrd).dedup
  else
    none

/-! ### Semantics of the generated trait implementations

`make_enum_engine_trait_impl` has three branches; each quotes a concrete
`try_from_ord` / `ord` implementation.  We embed the emitted code of each branch.
-/

/-- A runtime value of a generated non-exhaustive enum:
`#[repr(transparent)] pub struct Name { ord: i32 }`. -/
structure EnumOrdValue where
  ord : Int
deriving DecidableEq, Repr

/-- A runtime value of a generated bitfield:
`#[repr(transparent)] pub struct Name { ord: u64 }`. -/
structure BitfieldValue where
  ord : Nat
deriving DecidableEq, Repr

/-- Bitfield branch of the emitted `try_from_ord`:
`fn try_from_ord(ord: u64) -> Option<Self> { Some(Self { ord }) }`. -/
def bitfield_try_from_ord (o : Nat) : Option BitfieldValue :=
  some ⟨o⟩

/-- Bitfield branch of the emitted `ord`: `fn ord(self) -> u64 { self.ord }`. -/
def bitfield_ord (v : BitfieldValue) : Nat :=
  v.ord

/-- Emitted `BitOr` for a bitfield:
`fn bitor(self, rhs: Self) -> Self { Self { ord: self.ord | rhs.ord } }`. -/
def bitfield_bitor (a b : BitfieldValue) : BitfieldValue :=
  ⟨Nat.lor a.ord b.ord⟩

/-- Non-exhaustive enum branch of the emitted `try_from_ord`, generated from
the `unique_ords` list:
`match ord { ord @ o1 | o2 | ... => Some(Self { ord }), _ => None }`. -/
def nonexh_try_from_ord (ords : List Int) (o : Int) : Option EnumOrdValue :=
  if o ∈ ords then some ⟨o⟩ else none

/-- Non-exhaustive enum branch of the emitted `ord`:
`fn ord(self) -> i32 { self.ord }`. -/
def nonexh_ord (v : EnumOrdValue) : Int :=
  v.ord

/-- Exhaustive enum branch of the emitted `try_from_ord`: one match arm
`#ord => Some(Self::#name)` per enumerator, first arm wins, `_ => None`.
A variant of the emitted Rust enum is identified by its (unique) name. -/
def exh_try_from_ord (e : Enum) (o : Int) : Option String :=
  (e.enumerators.find? (fun en => en.value == EnumeratorValue.enum o)).map Enumerator.name

/-- Exhaustive enum branch of the emitted `ord`: `self as i32`, i.e. the
declared discriminant of the variant (the value of the enumerator carrying
the name of the variant). -/
def exh_ord (e : Enum) (n : String) : Int :=
  (((e.enumerators.find? (fun en => en.name == n)).bind Enumerator.enumOrd).getD 0)

/-! ### Semantics of the generated string functions (`make_enum_str_functions`,
`make_enum_to_str_cases`) -/

/-- The match cases of `make_enum_to_str_cases` applied to a non-exhaustive
enum value: arms `Self::#name => #name_str` compare the value against each
enumerator constant (ordinal equality, declaration order, first arm wins). -/
def nonexh_to_str_cases (e : Enum) (v : EnumOrdValue) : Option String :=
  (e.enumerators.find? (fun en => en.value == EnumeratorValue.enum v.ord)).map Enumerator.name

/-- Emitted `as_str` for a non-exhaustive enum: the to-str match cases with
fallback arm `_ => ""`. -/
def nonexh_as_str (e : Enum) (v : EnumOrdValue) : String :=
  (nonexh_to_str_cases e v).getD ""

/-- Emitted `as_str` for an exhaustive enum: the arm for variant `n` yields
the string holding the same characters as the variant name; the `_ => ""` arm is
unreachable for declared variants. -/
def exh_as_str (e : Enum) (n : String) : String :=
  if e.enumerators.any (fun en => en.name == n) then n else ""

/-- Emitted `godot_name` for a non-exhaustive enum: match arms only for
enumerators whose Godot name differs from the target name, with fallback
`_ => self.as_str()` (or the bare `self.as_str()` when no arm exists). -/
def nonexh_godot_name (e : Enum) (v : EnumOrdValue) : String :=
  match (e.enumerators.filter (fun en => en.name != en.godot_name)).find?
      (fun en => en.value == EnumeratorValue.enum v.ord) with
  | some en => en.godot_name
  | none => nonexh_as_str e v

/-! ### Semantics of the generated `Debug` impl (`make_enum_debug_impl`) -/

/-- Observable output of the generated `fmt`: either the enumerator
identifier written via `f.write_str`, or the struct-like fallback
`f.debug_struct(name).field("ord", &self.ord)`. -/
inductive DebugOutput where
  | ident (s : String)
  | ord_struct (ty : String) (ord : Int)
deriving DecidableEq, Repr

/-- Generated `Debug::fmt` for a non-exhaustive (non-bitfield) enum value.
With `use_as_str` (traits defined and not a bitfield) the body calls
`self.as_str()` and falls back when the result is empty; otherwise it
inlines the to-str match cases with the fallback in the `_` arm. -/
def enum_debug_fmt (e : Enum) (use_as_str : Bool) (v : EnumOrdValue) : DebugOutput :=
  if use_as_str then
    let s := nonexh_as_str e v
    if s = "" then .ord_struct e.name v.ord else .ident s
  else
    match nonexh_to_str_cases e v with
    | some s => .ident s
    | none => .ord_struct e.name v.ord

/-- Generated `Debug::fmt` for a bitfield value (`use_as_str` is false for
bitfields): inlined match over the `u64`-valued enumerator constants with
struct-like fallback printing the ordinal. -/
def bitfield_debug_fmt (e : Enum) (v : BitfieldValue) : DebugOutput :=
  match (e.enumerators.find? (fun en => en.value == EnumeratorValue.bitfield v.ord)).map
      Enumerator.name with
  | some s => .ident s
  | none => .ord_struct e.name (v.ord : Int)

/-! ### Semantics of the generated cross-type mask operators
(`make_enum_bitwise_operators`, maskable-companion branch) -/

/-- Rust `i32::MAX`, the bound of `i32::try_from` on a `u64`. -/
def i32_max : Int := 2147483647

/-- Emitted `BitOr<Mask> for Enum`:
`Self { ord: self.ord | i32::try_from(rhs.ord).expect("masking bitfield outside integer range") }`.
`i32::try_from(u64)` succeeds exactly when the value is at most `i32::MAX`;
on failure the `expect` panics (modelled as `Except.error`). -/
def enum_mask_bitor (e : EnumOrdValue) (m : BitfieldValue) : Except String EnumOrdValue :=
  if (m.ord : Int) ≤ i32_max then
    .ok ⟨Int.lor e.ord (m.ord : Int)⟩
  else
    .error "masking bitfield outside integer range"

/-- Emitted `BitOr<Enum> for Mask`: `fn bitor(self, rhs: Enum) { rhs | self }`. -/
def mask_enum_bitor (m : BitfieldValue) (e : EnumOrdValue) : Except String EnumOrdValue :=
  enum_mask_bitor e m

/-- Emitted `BitOrAssign<Mask> for Enum`: `*self = *self | rhs`. -/
def enum_mask_bitor_assign (e : EnumOrdValue) (m : BitfieldValue) : Except String EnumOrdValue :=
  enum_mask_bitor e m

/-! ### The generator functions themselves (abort behaviour)

Generation-time panics (`assert!`, `.expect`, `panic!`) are modelled as
`Except.error` carrying the message from the source; the successful result records
which of the two independently selectable outputs were emitted. -/

/-- Which outputs `make_enum_definition_with` emitted: the type definition
and/or the trait implementations. -/
structure EnumGenOutput where
  definition_emitted : Bool
  traits_emitted : Bool
deriving DecidableEq, Repr

/-- Abort behaviour of `make_enum_engine_trait_impl`: the bitfield branch
cannot abort; the exhaustive branch panics
(`"exhaustive enum contains bitfield enumerators"`) when destructuring
`EnumeratorValue::Enum` fails for some enumerator; the non-exhaustive branch
evaluates `enum_.unique_ords().expect("self is an enum")`. -/
def engine_trait_impl_check (e : Enum) : Except String Unit :=
  if e.is_bitfield then
    .ok ()
  else if e.is_exhaustive then
    if e.enumerators.all (fun en => en.enumOrd.isSome) then
      .ok ()
    else
      .error "exhaustive enum contains bitfield enumerators"
  else
    match unique_ords e with
    | some _ => .ok ()
    | none => .error "self is an enum"

/-- Function `make_enum_definition_with`: first the assertion
`assert!(!(enum_.is_bitfield && enum_.is_exhaustive), "bitfields cannot be marked exhaustive")`,
then (when `define_traits`) the engine-trait construction, then the outputs
selected by the two flags. -/
def make_enum_definition_with (e : Enum) (define_enum define_traits : Bool) :
    Except String EnumGenOutput :=
  if e.is_bitfield && e.is_exhaustive then
    .error "bitfields cannot be marked exhaustive"
  else if define_traits then
    (engine_trait_impl_check e).map (fun _ => ⟨define_enum, define_traits⟩)
  else
    .ok ⟨define_enum, define_traits⟩

/-- Function `make_enum_definition`: definition and traits both requested. -/
def make_enum_definition (e : Enum) : Except String EnumGenOutput :=
  make_enum_definition_with e true true

/-! ### Central-file generator (`central_files.rs`) -/

/-- One builtin value type as consumed by `make_variant_enums` (the domain
model accessors `godot_original_name` / `godot_shout_name`). -/
structure BuiltinClass where
  godot_original_name : String
  godot_shout_name : String
deriving DecidableEq, Repr

/-- The root domain object, restricted to the fields `central_files.rs`
reads for the claims at hand. -/
structure ExtensionApi where
  global_enums : List Enum
  builtins : List BuiltinClass
deriving DecidableEq, Repr

/-- Loop body of `make_global_enums`: skip the enum named `"VariantType"`,
route private enums into the re-exported (internal) module list and all
others into the public `global_enums` list, preserving order. -/
def make_global_enums_list : List Enum → List Enum × List Enum
  | [] => ([], [])
  | e :: rest =>
    if e.name == "VariantType" then
      make_global_enums_list rest
    else if e.is_private then
      ((make_global_enums_list rest).1, e :: (make_global_enums_list rest).2)
    else
      (e :: (make_global_enums_list rest).1, (make_global_enums_list rest).2)

/-- Function `make_global_enums`: returns `(global_enum_defs, global_reexported_enum_defs)`,
spliced into `pub mod global_enums` and `pub mod global_reexported_enums`
respectively by `make_core_central_code`. -/
def make_global_enums (api : ExtensionApi) : List Enum × List Enum :=
  make_global_enums_list api.global_enums

/-- Function `make_variant_type_enum`: finds the global enum named `"VariantType"`,
panicking with `"missing VariantType enum in API JSON"` if absent; otherwise
builds its definition (when `is_definition`) or trait-impl block (otherwise)
via `make_enum_definition_with variant_type_enum define_enum define_traits`
with `define_enum = is_definition` and `define_traits = !is_definition`. -/
def make_variant_type_enum (api : ExtensionApi) (is_definition : Bool) :
    Except String EnumGenOutput :=
  match api.global_enums.find? (fun e => e.name == "VariantType") with
  | none => .error "missing VariantType enum in API JSON"
  | some e => make_enum_definition_with e is_definition (!is_definition)

/-- One arm of the generated `VariantDispatch` sum type: the synthesized
`Nil` arm, or the arm of the builtin at a given position of
`api.builtins`. -/
inductive DispatchArm where
  | nil
  | builtin (idx : Nat)
deriving DecidableEq, Repr

/-- The arms of the generated `pub enum VariantDispatch`: `Nil` first
(written literally in the `quote!` template, not taken from the builtin
iteration), then one arm per entry of `api.builtins` in order. -/
def variant_dispatch_arms (api : ExtensionApi) : List DispatchArm :=
  .nil :: (List.range api.builtins.length).map .builtin

/-- The ordinal of the `VariantType` associated constant with the given
name (the generated constants are keyed by unique enumerator names). -/
def vt_const_ord (vt : Enum) (n : String) : Option Int :=
  (vt.enumerators.find? (fun en => en.name == n)).bind Enumerator.enumOrd

/-- Generated `VariantDispatch::from_variant`, as a function of the dynamic
value type tag (the `VariantType` ordinal returned by
`variant.get_type()`): match `VariantType::NIL => Self::Nil`, then one arm
`VariantType::#shout => Self::#pascal(...)` per builtin, and
`_ => panic!(...)` (modelled as `none`) when no arm matches. -/
def variant_dispatch_from_variant (vt : Enum) (api : ExtensionApi) (tag : Int) :
    Option DispatchArm :=
  if vt_const_ord vt "NIL" == some tag then
    some .nil
  else
    match api.builtins.findIdx? (fun b => vt_const_ord vt b.godot_shout_name == some tag) with
    | some i => some (.builtin i)
    | none => none

/-! ### Concrete fixtures (small instances of the domain model, used to
evaluate the definitions on concrete inputs) -/

/-- A non-exhaustive enum with a single enumerator `FOO = 1`. -/
def demoNonExhaustive : Enum :=
  { name := "Demo", godot_name := "Demo", is_bitfield := false, is_exhaustive := false,
    is_private := false,
    enumerators := [⟨"FOO", "FOO", .enum 1⟩] }

/-- Exhaustive example from the spec: `Orientation` with `VERTICAL = 0`,
`HORIZONTAL = 1`. -/
def demoOrientation : Enum :=
  { name := "Orientation", godot_name := "Orientation", is_bitfield := false,
    is_exhaustive := true, is_private := false,
    enumerators := [⟨"VERTICAL", "VERTICAL", .enum 0⟩, ⟨"HORIZONTAL", "HORIZONTAL", .enum 1⟩] }

/-- Bitfield example from the spec: enumerators `A = 1`, `B = 2`. -/
def demoBitfieldAB : Enum :=
  { name := "DemoFlags", godot_name := "DemoFlags", is_bitfield := true,
    is_exhaustive := false, is_private := false,
    enumerators := [⟨"A", "A", .bitfield 1⟩, ⟨"B", "B", .bitfield 2⟩] }

/-- Aliasing example from the spec: non-exhaustive enum with `FOO = 5` and
`BAR = 5` (duplicate ordinals). -/
def demoDupEnum : Enum :=
  { name := "DemoDup", godot_name := "DemoDup", is_bitfield := false,
    is_exhaustive := false, is_private := false,
    enumerators := [⟨"FOO", "FOO", .enum 5⟩, ⟨"BAR", "BAR", .enum 5⟩] }

/-- An enum wrongly marked both bitfield and exhaustive (triggers the
generation-time assertion). -/
def demoBadEnum : Enum :=
  { name := "DemoBad", godot_name := "DemoBad", is_bitfield := true,
    is_exhaustive := true, is_private := false,
    enumerators := [] }

/-- A private (internally-used-only) global enum. -/
def demoPrivateEnum : Enum :=
  { name := "DemoPriv", godot_name := "DemoPriv", is_bitfield := false,
    is_exhaustive := false, is_private := true,
    enumerators := [⟨"X", "X", .enum 0⟩] }

/-- A small `VariantType` tag enum: `NIL = 0`, `BOOL = 1`, `INT = 2`. -/
def demoVariantType : Enum :=
  { name := "VariantType", godot_name := "Variant.Type", is_bitfield := false,
    is_exhaustive := false, is_private := false,
    enumerators := [⟨"NIL", "TYPE_NIL", .enum 0⟩, ⟨"BOOL", "TYPE_BOOL", .enum 1⟩,
      ⟨"INT", "TYPE_INT", .enum 2⟩] }

/-- Builtin list for the fixtures (`NIL` is absent, as in the real API). -/
def demoBuiltins : List BuiltinClass :=
  [⟨"bool", "BOOL"⟩, ⟨"int", "INT"⟩]

/-- A small `ExtensionApi` containing the fixtures. -/
def demoApi : ExtensionApi :=
  { global_enums := [demoVariantType, demoNonExhaustive, demoPrivateEnum],
    builtins := demoBuiltins }

/-- The same API with the `VariantType` enum missing. -/
def demoApiNoVariantType : ExtensionApi :=
  { global_enums := [demoNonExhaustive, demoPrivateEnum],
    builtins := demoBuiltins }

/-! ## Helper lemmas -/

theorem enumOrd_eq_some {en : Enumerator} {o : Int} :
    en.enumOrd = some o ↔ en.value = .enum o := by
  cases en with
  | mk n g v => cases v <;> simp [Enumerator.enumOrd]

theorem mem_unique_ords {e : Enum} {ords : List Int}
    (h : unique_ords e = some ords) (o : Int) :
    o ∈ ords ↔ ∃ en ∈ e.enumerators, en.value = EnumeratorValue.enum o := by
  unfold unique_ords at h
  split at h
  · obtain rfl : (e.enumerators.filterMap Enumerator.enumOrd).dedup = ords :=
      Option.some.inj h
    rw [List.mem_dedup, List.mem_filterMap]
    constructor
    · rintro ⟨en, hmem, hord⟩
      exact ⟨en, hmem, enumOrd_eq_some.mp hord⟩
    · rintro ⟨en, hmem, hval⟩
      exact ⟨en, hmem, enumOrd_eq_some.mpr hval⟩
  · cases h

/-- On a list with no duplicate names, looking up an element by its own name
finds exactly that element. -/
theorem find?_name_self {l : List Enumerator} {en : Enumerator}
    (hnd : (l.map Enumerator.name).Nodup) (hmem : en ∈ l) :
    l.find? (fun x => x.name == en.name) = some en := by
  induction l with
  | nil => cases hmem
  | cons a rest ih =>
    have hnd2 : (∀ x ∈ rest, ¬x.name = a.name) ∧ (List.map Enumerator.name rest).Nodup := by
      simpa using hnd
    rcases List.mem_cons.mp hmem with rfl | hmem2
    · exact List.find?_cons_of_pos _ (by simp)
    · have hne : a.name ≠ en.name := fun hEq => hnd2.1 en hmem2 hEq.symm
      rw [List.find?_cons_of_neg _ (by simp [hne])]
      exact ih hnd2.2 hmem2

/-- The engine-trait construction never fails with the message of the
bitfield/exhaustive assertion (its own failure messages are distinct). -/
theorem engine_trait_check_messages (e : Enum) :
    engine_trait_impl_check e ≠ Except.error "bitfields cannot be marked exhaustive" := by
  unfold engine_trait_impl_check
  intro h
  split at h
  · cases h
  · split at h
    · split at h
      · cases h
      · injection h with h1
        exact absurd h1 (by decide)
    · split at h
      · cases h
      · injection h with h1
        exact absurd h1 (by decide)

/-! ## Claims -/

/-- C5: constructing a definition for an enum marked both bitfield and
exhaustive fails with the process-fatal assertion message
`"bitfields cannot be marked exhaustive"`, and for every enum not carrying
both marks — whatever the output-selection flags — the assertion does not
fire (no run of `make_enum_definition_with` produces that failure). -/
theorem bitfield_exhaustive_assert_iff (e : Enum) (d t : Bool) :
    make_enum_definition_with e d t = Except.error "bitfields cannot be marked exhaustive" ↔
      (e.is_bitfield = true ∧ e.is_exhaustive = true) := by
  unfold make_enum_definition_with
  constructor
  · intro h
    split at h
    · next hcond => exact Bool.and_eq_true _ _ |>.mp hcond
    · split at h
      · cases hchk : engine_trait_impl_check e with
        | ok u =>
          rw [hchk] at h
          simp [Except.map] at h
        | error s =>
          rw [hchk] at h
          have hs : s = "bitfields cannot be marked exhaustive" := by
            simpa [Except.map] using h
          exact absurd (hchk.trans (by rw [hs])) (engine_trait_check_messages e)
      · cases h
  · rintro ⟨hb, hx⟩
    simp [hb, hx]

/-- C5 witness: the assertion fires on the ill-formed fixture. -/
theorem bitfield_exhaustive_assert_iff_witness :
    make_enum_definition_with demoBadEnum true true =
      Except.error "bitfields cannot be marked exhaustive" :=
  (bitfield_exhaustive_assert_iff demoBadEnum true true).mpr ⟨rfl, rfl⟩

/-- C4: for every bitfield, the generated `BitOr` lifts bitwise OR on the
underlying `u64` ordinals (`ordinal_of(a | b) = ordinal_of(a) | ordinal_of(b)`);
concretely, for the bitfield with `A = 1`, `B = 2`, `try_from_ord 3`
succeeds, the resulting value has ordinal 3, `A | B` has ordinal 3, and no
single enumerator of that bitfield has value 3. -/
theorem bitfield_bitor_lifts_ord :
    (∀ a b : BitfieldValue,
      bitfield_ord (bitfield_bitor a b) = Nat.lor (bitfield_ord a) (bitfield_ord b)) ∧
    (bitfield_try_from_ord 3 = some ⟨3⟩ ∧
      bitfield_ord ⟨3⟩ = 3 ∧
      bitfield_bitor ⟨1⟩ ⟨2⟩ = ⟨3⟩ ∧
      demoBitfieldAB.enumerators.all
        (fun en => en.value != EnumeratorValue.bitfield 3) = true) := by
  refine ⟨fun a b => rfl, rfl, rfl, ?_, ?_⟩
  · decide
  · decide

/-- C10: the cross-type OR between an enum and its maskable companion
bitfield lifts OR on ordinals whenever the mask `u64` ordinal fits into
`i32` (`ordinal_of(e | m) = ordinal_of(e) | ordinal_of(m)`), is symmetric
(`m | e` is defined as `e | m`), OR-assignment stores `e | m`, and the
operation panics (rather than truncating) when the mask ordinal exceeds the
signed 32-bit range. -/
theorem enum_mask_bitor_spec (e : EnumOrdValue) (m : BitfieldValue) :
    ((m.ord : Int) ≤ i32_max →
      enum_mask_bitor e m = Except.ok ⟨Int.lor (nonexh_ord e) ((bitfield_ord m : Int))⟩) ∧
    (mask_enum_bitor m e = enum_mask_bitor e m) ∧
    (enum_mask_bitor_assign e m = enum_mask_bitor e m) ∧
    ((m.ord : Int) > i32_max →
      enum_mask_bitor e m = Except.error "masking bitfield outside integer range") := by
  refine ⟨fun h => ?_, rfl, rfl, fun h => ?_⟩
  · simp [enum_mask_bitor, h, nonexh_ord, bitfield_ord]
  · simp [enum_mask_bitor, not_le.mpr h]

/-- C10 witness: `⟨1⟩ | mask ⟨2⟩` succeeds with ordinal 3; the reversed and
assignment forms agree. -/
theorem enum_mask_bitor_spec_witness :
    enum_mask_bitor ⟨1⟩ ⟨2⟩ = Except.ok ⟨3⟩ ∧
      mask_enum_bitor ⟨2⟩ ⟨1⟩ = enum_mask_bitor ⟨1⟩ ⟨2⟩ ∧
      enum_mask_bitor_assign ⟨1⟩ ⟨2⟩ = enum_mask_bitor ⟨1⟩ ⟨2⟩ := by
  have h := enum_mask_bitor_spec ⟨1⟩ ⟨2⟩
  refine ⟨?_, h.2.1, h.2.2.1⟩
  rw [h.1 (by decide)]
  have : Int.lor 1 2 = 3 := by decide
  simp [nonexh_ord, bitfield_ord, this]

/-- C1 counterexample: for the non-exhaustive enum fixture (single
enumerator `FOO = 1`) the generated `try_from_ord` — whose match arms come
from `unique_ords`, here `[1]` — returns `None` at ordinal 2, so
ordinal-to-value conversion of a non-exhaustive enum does not succeed for
arbitrary ordinals. -/
theorem nonexh_try_from_ord_not_total_cex :
    unique_ords demoNonExhaustive = some [1] ∧
      nonexh_try_from_ord [1] 2 = none := by
  constructor
  · decide
  · decide

/-- C1 (amended): for bitfields, `try_from_ord` succeeds for every ordinal
and `value_of(ordinal_of(v)) = v` for every value; for non-exhaustive enums,
`try_from_ord` succeeds exactly for the ordinals present among the
enumerators, and `value_of(ordinal_of(v)) = v` for every value carrying such
an ordinal (every constructible value). -/
theorem nonexh_bitfield_roundtrip (e : Enum) (ords : List Int)
    (h : unique_ords e = some ords) :
    (∀ o : Nat, bitfield_try_from_ord o = some ⟨o⟩) ∧
    (∀ v : BitfieldValue, bitfield_try_from_ord (bitfield_ord v) = some v) ∧
    (∀ o : Int, (nonexh_try_from_ord ords o).isSome ↔
      ∃ en ∈ e.enumerators, en.value = EnumeratorValue.enum o) ∧
    (∀ v : EnumOrdValue, (∃ en ∈ e.enumerators, en.value = EnumeratorValue.enum v.ord) →
      nonexh_try_from_ord ords (nonexh_ord v) = some v) := by
  refine ⟨fun o => rfl, fun v => rfl, fun o => ?_, fun v hv => ?_⟩
  · rw [← mem_unique_ords h o]
    unfold nonexh_try_from_ord
    split <;> simp_all
  · have hm : v.ord ∈ ords := (mem_unique_ords h v.ord).mpr hv
    unfold nonexh_try_from_ord nonexh_ord
    rw [if_pos hm]

/-- C1 witness: round-trip on the constructible value `FOO` of the
non-exhaustive fixture. -/
theorem nonexh_bitfield_roundtrip_witness :
    nonexh_try_from_ord [1] (nonexh_ord ⟨1⟩) = some ⟨1⟩ := by
  have h := nonexh_bitfield_roundtrip demoNonExhaustive [1] (by decide)
  exact h.2.2.2 ⟨1⟩ ⟨⟨"FOO", "FOO", .enum 1⟩, by decide, rfl⟩

/-- Membership in the first (public `global_enums`) output list. -/
theorem mem_make_global_enums_fst (l : List Enum) (x : Enum) :
    x ∈ (make_global_enums_list l).1 ↔
      x ∈ l ∧ x.name ≠ "VariantType" ∧ x.is_private = false := by
  induction l with
  | nil => simp [make_global_enums_list]
  | cons e rest ih =>
    by_cases hv : e.name = "VariantType"
    · rw [show make_global_enums_list (e :: rest) = make_global_enums_list rest by
        simp [make_global_enums_list, hv]]
      rw [ih]
      constructor
      · rintro ⟨hm, hn, hp⟩
        exact ⟨List.mem_cons_of_mem _ hm, hn, hp⟩
      · rintro ⟨hm, hn, hp⟩
        rcases List.mem_cons.mp hm with rfl | hm2
        · exact absurd hv hn
        · exact ⟨hm2, hn, hp⟩
    · by_cases hp : e.is_private = true
      · rw [show (make_global_enums_list (e :: rest)).1 = (make_global_enums_list rest).1 by
          simp [make_global_enums_list, hv, hp]]
        rw [ih]
        constructor
        · rintro ⟨hm, hn, hpx⟩
          exact ⟨List.mem_cons_of_mem _ hm, hn, hpx⟩
        · rintro ⟨hm, hn, hpx⟩
          rcases List.mem_cons.mp hm with rfl | hm2
          · rw [hp] at hpx; cases hpx
          · exact ⟨hm2, hn, hpx⟩
      · rw [show (make_global_enums_list (e :: rest)).1 = e :: (make_global_enums_list rest).1 by
          simp [make_global_enums_list, hv, hp]]
        rw [List.mem_cons, ih]
        constructor
        · rintro (rfl | ⟨hm, hn, hpx⟩)
          · exact ⟨List.mem_cons_self _ _, hv, Bool.not_eq_true _ |>.mp hp⟩
          · exact ⟨List.mem_cons_of_mem _ hm, hn, hpx⟩
        · rintro ⟨hm, hn, hpx⟩
          rcases List.mem_cons.mp hm with rfl | hm2
          · exact Or.inl rfl
          · exact Or.inr ⟨hm2, hn, hpx⟩

/-- Membership in the second (`global_reexported_enums`) output list. -/
theorem mem_make_global_enums_snd (l : List Enum) (x : Enum) :
    x ∈ (make_global_enums_list l).2 ↔
      x ∈ l ∧ x.name ≠ "VariantType" ∧ x.is_private = true := by
  induction l with
  | nil => simp [make_global_enums_list]
  | cons e rest ih =>
    by_cases hv : e.name = "VariantType"
    · rw [show make_global_enums_list (e :: rest) = make_global_enums_list rest by
        simp [make_global_enums_list, hv]]
      rw [ih]
      constructor
      · rintro ⟨hm, hn, hp⟩
        exact ⟨List.mem_cons_of_mem _ hm, hn, hp⟩
      · rintro ⟨hm, hn, hp⟩
        rcases List.mem_cons.mp hm with rfl | hm2
        · exact absurd hv hn
        · exact ⟨hm2, hn, hp⟩
    · by_cases hp : e.is_private = true
      · rw [show (make_global_enums_list (e :: rest)).2 = e :: (make_global_enums_list rest).2 by
          simp [make_global_enums_list, hv, hp]]
        rw [List.mem_cons, ih]
        constructor
        · rintro (rfl | ⟨hm, hn, hpx⟩)
          · exact ⟨List.mem_cons_self _ _, hv, hp⟩
          · exact ⟨List.mem_cons_of_mem _ hm, hn, hpx⟩
        · rintro ⟨hm, hn, hpx⟩
          rcases List.mem_cons.mp hm with rfl | hm2
          · exact Or.inl rfl
          · exact Or.inr ⟨hm2, hn, hpx⟩
      · rw [show (make_global_enums_list (e :: rest)).2 = (make_global_enums_list rest).2 by
          simp [make_global_enums_list, hv, hp]]
        rw [ih]
        constructor
        · rintro ⟨hm, hn, hpx⟩
          exact ⟨List.mem_cons_of_mem _ hm, hn, hpx⟩
        · rintro ⟨hm, hn, hpx⟩
          rcases List.mem_cons.mp hm with rfl | hm2
          · rw [hpx] at hp; exact absurd rfl hp
          · exact ⟨hm2, hn, hpx⟩

/-- C2: every global enum other than the one named `VariantType` is routed
by `make_global_enums` into the public `global_enums` list when its private
flag is false and into the `global_reexported_enums` (internally-used-only)
list when the flag is true; conversely the first list holds exactly the
non-private, non-`VariantType` global enums and the second exactly the
private, non-`VariantType` ones. -/
theorem global_enum_partitioning (api : ExtensionApi) (e : Enum)
    (hmem : e ∈ api.global_enums) (hname : e.name ≠ "VariantType") :
    (e.is_private = false → e ∈ (make_global_enums api).1) ∧
    (e.is_private = true → e ∈ (make_global_enums api).2) ∧
    (∀ x, x ∈ (make_global_enums api).1 ↔
      x ∈ api.global_enums ∧ x.name ≠ "VariantType" ∧ x.is_private = false) ∧
    (∀ x, x ∈ (make_global_enums api).2 ↔
      x ∈ api.global_enums ∧ x.name ≠ "VariantType" ∧ x.is_private = true) := by
  refine ⟨fun hp => ?_, fun hp => ?_,
    fun x => mem_make_global_enums_fst api.global_enums x,
    fun x => mem_make_global_enums_snd api.global_enums x⟩
  · exact (mem_make_global_enums_fst api.global_enums e).mpr ⟨hmem, hname, hp⟩
  · exact (mem_make_global_enums_snd api.global_enums e).mpr ⟨hmem, hname, hp⟩

/-- C2 witness: in the fixture API, the non-private enum lands in the public
list and the private one in the re-exported list. -/
theorem global_enum_partitioning_witness :
    demoNonExhaustive ∈ (make_global_enums demoApi).1 ∧
      demoPrivateEnum ∈ (make_global_enums demoApi).2 := by
  have h1 := global_enum_partitioning demoApi demoNonExhaustive (by decide) (by decide)
  have h2 := global_enum_partitioning demoApi demoPrivateEnum (by decide) (by decide)
  exact ⟨h1.1 rfl, h2.2.1 rfl⟩

/-- C3: for an exhaustive enum (with its compiler-enforced unique variant
names), the generated `try_from_ord` succeeds exactly on the ordinals
present among the enumerators, `ordinal_of(value_of(o)) = o` for every
present ordinal `o`, `ord` yields the declared ordinal of every variant, and
on the `Orientation` example of the spec: `value_of(0) = Some(VERTICAL)`,
`value_of(2) = None`, `ordinal_of(VERTICAL) = 0`. -/
theorem exhaustive_enum_roundtrip (e : Enum)
    (hnames : (e.enumerators.map Enumerator.name).Nodup) :
    (∀ o : Int, (exh_try_from_ord e o).isSome ↔
      ∃ en ∈ e.enumerators, en.value = EnumeratorValue.enum o) ∧
    (∀ o n, exh_try_from_ord e o = some n → exh_ord e n = o) ∧
    (∀ en ∈ e.enumerators, ∀ o, en.value = EnumeratorValue.enum o →
      exh_ord e en.name = o) ∧
    (exh_try_from_ord demoOrientation 0 = some "VERTICAL" ∧
      exh_try_from_ord demoOrientation 2 = none ∧
      exh_ord demoOrientation "VERTICAL" = 0) := by
  have hord : ∀ en ∈ e.enumerators, ∀ o : Int,
      en.value = EnumeratorValue.enum o → exh_ord e en.name = o := by
    intro en hen o hval
    unfold exh_ord
    rw [find?_name_self hnames hen]
    simp [Option.bind, enumOrd_eq_some.mpr hval]
  refine ⟨fun o => ?_, fun o n hfind => ?_, hord, by decide, by decide, by decide⟩
  · unfold exh_try_from_ord
    rw [Option.isSome_map', List.find?_isSome]
    constructor
    · rintro ⟨en, hen, hbeq⟩
      exact ⟨en, hen, by simpa using hbeq⟩
    · rintro ⟨en, hen, hval⟩
      exact ⟨en, hen, by simp [hval]⟩
  · unfold exh_try_from_ord at hfind
    rcases Option.map_eq_some'.mp hfind with ⟨en, hfind2, rfl⟩
    have hen := List.mem_of_find?_eq_some hfind2
    have hval : en.value = EnumeratorValue.enum o := by
      simpa using List.find?_some hfind2
    exact hord en hen o hval

/-- C3 witness: instantiation on the `Orientation` fixture. -/
theorem exhaustive_enum_roundtrip_witness :
    exh_try_from_ord demoOrientation 0 = some "VERTICAL" ∧
      exh_try_from_ord demoOrientation 2 = none ∧
      exh_ord demoOrientation "VERTICAL" = 0 := by
  exact (exhaustive_enum_roundtrip demoOrientation (by decide)).2.2.2

/-- C6: the generated `as_str` returns the name of the (first-declared)
enumerator whose constant matches the value, falls back to the empty string
when no enumerator matches, and — the match arms being in declaration order —
the tie-break between duplicate ordinals is deterministic: first declared
wins, as on the `FOO = 5` / `BAR = 5` fixture where `as_str` yields
`"FOO"`. -/
theorem as_str_first_declared_wins (e : Enum) (v : EnumOrdValue) :
    (∀ en, e.enumerators.find? (fun x => x.value == EnumeratorValue.enum v.ord) = some en →
      nonexh_as_str e v = en.name ∧ en ∈ e.enumerators ∧
        en.value = EnumeratorValue.enum v.ord) ∧
    ((∀ en ∈ e.enumerators, en.value ≠ EnumeratorValue.enum v.ord) →
      nonexh_as_str e v = "") ∧
    (∀ l1 en l2, e.enumerators = l1 ++ en :: l2 →
      en.value = EnumeratorValue.enum v.ord →
      (∀ x ∈ l1, x.value ≠ EnumeratorValue.enum v.ord) →
      nonexh_as_str e v = en.name) ∧
    (nonexh_as_str demoDupEnum ⟨5⟩ = "FOO" ∧
      demoDupEnum.enumerators.map Enumerator.name = ["FOO", "BAR"]) := by
  refine ⟨fun en hfind => ?_, fun hnone => ?_,
    fun l1 en l2 hsplit hval hbefore => ?_, by decide, by decide⟩
  · refine ⟨?_, List.mem_of_find?_eq_some hfind, by simpa using List.find?_some hfind⟩
    unfold nonexh_as_str nonexh_to_str_cases
    rw [hfind]
    rfl
  · unfold nonexh_as_str nonexh_to_str_cases
    rw [List.find?_eq_none.mpr (fun x hx => by simp [hnone x hx])]
    rfl
  · have hfind : e.enumerators.find? (fun x => x.value == EnumeratorValue.enum v.ord)
        = some en := by
      rw [List.find?_eq_some]
      exact ⟨by simp [hval], l1, l2, hsplit, fun a ha => by simp [hbefore a ha]⟩
    unfold nonexh_as_str nonexh_to_str_cases
    rw [hfind]
    rfl

/-- C6 witness: the duplicate-ordinal fixture returns the first-declared
name. -/
theorem as_str_first_declared_wins_witness :
    nonexh_as_str demoDupEnum ⟨5⟩ = "FOO" := by
  have h := as_str_first_declared_wins demoDupEnum ⟨5⟩
  exact (h.1 ⟨"FOO", "FOO", .enum 5⟩ (by decide)).1

/-- C7: the generated `Debug` formatter is a total two-path function for
every enum value and every bitfield value: it writes the matched
enumerator identifier when one resolves, and otherwise the struct-like
fallback containing the bare ordinal (so it never panics, also for
forward-incompatible ordinals). `use_as_str` covers both emitted bodies.
Requires the names to be nonempty, which every Rust identifier is. -/
theorem enum_debug_never_panics (e : Enum) (flag : Bool) (v : EnumOrdValue)
    (hnames : ∀ en ∈ e.enumerators, en.name ≠ "") :
    ((∃ en, e.enumerators.find? (fun x => x.value == EnumeratorValue.enum v.ord) = some en ∧
        enum_debug_fmt e flag v = DebugOutput.ident en.name) ∨
      ((∀ en ∈ e.enumerators, en.value ≠ EnumeratorValue.enum v.ord) ∧
        enum_debug_fmt e flag v = DebugOutput.ord_struct e.name v.ord)) ∧
    (∀ w : BitfieldValue,
      (∃ en, e.enumerators.find? (fun x => x.value == EnumeratorValue.bitfield w.ord)
          = some en ∧
        bitfield_debug_fmt e w = DebugOutput.ident en.name) ∨
      ((∀ en ∈ e.enumerators, en.value ≠ EnumeratorValue.bitfield w.ord) ∧
        bitfield_debug_fmt e w = DebugOutput.ord_struct e.name (w.ord : Int))) := by
  constructor
  · cases hfind : e.enumerators.find? (fun x => x.value == EnumeratorValue.enum v.ord) with
    | none =>
      refine Or.inr ⟨fun en hen => by simpa using List.find?_eq_none.mp hfind en hen, ?_⟩
      cases flag with
      | true => simp [enum_debug_fmt, nonexh_as_str, nonexh_to_str_cases, hfind]
      | false => simp [enum_debug_fmt, nonexh_to_str_cases, hfind]
    | some en =>
      refine Or.inl ⟨en, rfl, ?_⟩
      have hmem := List.mem_of_find?_eq_some hfind
      cases flag with
      | true => simp [enum_debug_fmt, nonexh_as_str, nonexh_to_str_cases, hfind,
          hnames en hmem]
      | false => simp [enum_debug_fmt, nonexh_to_str_cases, hfind]
  · intro w
    cases hfind : e.enumerators.find? (fun x => x.value == EnumeratorValue.bitfield w.ord) with
    | none =>
      exact Or.inr ⟨fun en hen => by simpa using List.find?_eq_none.mp hfind en hen,
        by simp [bitfield_debug_fmt, hfind]⟩
    | some en =>
      exact Or.inl ⟨en, rfl, by simp [bitfield_debug_fmt, hfind]⟩

/-- C7 witness: an unmatched ordinal of the duplicate fixture falls back to
the struct-like representation; the matched ordinal 5 prints `FOO`. -/
theorem enum_debug_never_panics_witness :
    enum_debug_fmt demoDupEnum true ⟨7⟩ = DebugOutput.ord_struct "DemoDup" 7 ∧
      enum_debug_fmt demoDupEnum true ⟨5⟩ = DebugOutput.ident "FOO" := by
  have h7 := enum_debug_never_panics demoDupEnum true ⟨7⟩ (by decide)
  have h5 := enum_debug_never_panics demoDupEnum true ⟨5⟩ (by decide)
  constructor
  · rcases h7.1 with ⟨en, hfind, hout⟩ | ⟨hno, hout⟩
    · have hc : demoDupEnum.enumerators.find?
          (fun x => x.value == EnumeratorValue.enum (EnumOrdValue.mk 7).ord) = none := by
        decide
      rw [hc] at hfind
      cases hfind
    · exact hout
  · rcases h5.1 with ⟨en, hfind, hout⟩ | ⟨hno, hout⟩
    · have hc : demoDupEnum.enumerators.find?
          (fun x => x.value == EnumeratorValue.enum (EnumOrdValue.mk 5).ord)
          = some ⟨"FOO", "FOO", .enum 5⟩ := by decide
      rw [hc] at hfind
      rw [(Option.some.inj hfind).symm] at hout
      exact hout
    · exact absurd rfl (hno ⟨"FOO", "FOO", .enum 5⟩ (by decide))

/-- C8: the generated `VariantDispatch` has exactly one arm per builtin plus
the `Nil` arm, which is written into the template rather than taken from the
builtin iteration (no tail arm is `Nil`); `from_variant` maps the `NIL` tag
to the `Nil` arm, maps the tag of each builtin to the arm of that builtin
(first-declared on tag collisions), and panics — modelled as `none` — on any
tag matching no arm. -/
theorem variant_dispatch_spec (vt : Enum) (api : ExtensionApi) (nil_ord : Int)
    (hnil : vt_const_ord vt "NIL" = some nil_ord) :
    ((variant_dispatch_arms api).length = api.builtins.length + 1) ∧
    (variant_dispatch_arms api =
      DispatchArm.nil :: (List.range api.builtins.length).map DispatchArm.builtin) ∧
    (∀ a ∈ (variant_dispatch_arms api).tail, a ≠ DispatchArm.nil) ∧
    (variant_dispatch_from_variant vt api nil_ord = some DispatchArm.nil) ∧
    (∀ i b tag, api.builtins[i]? = some b →
      vt_const_ord vt b.godot_shout_name = some tag →
      tag ≠ nil_ord →
      (∀ j, j < i → ∀ bj, api.builtins[j]? = some bj →
        vt_const_ord vt bj.godot_shout_name ≠ some tag) →
      variant_dispatch_from_variant vt api tag = some (DispatchArm.builtin i)) ∧
    (∀ tag, tag ≠ nil_ord →
      (∀ b ∈ api.builtins, vt_const_ord vt b.godot_shout_name ≠ some tag) →
      variant_dispatch_from_variant vt api tag = none) := by
  refine ⟨by simp [variant_dispatch_arms], rfl, ?_, ?_, ?_, ?_⟩
  · intro a ha
    simp only [variant_dispatch_arms, List.tail_cons, List.mem_map] at ha
    obtain ⟨i, _, rfl⟩ := ha
    simp
  · unfold variant_dispatch_from_variant
    rw [hnil]
    simp
  · intro i b tag hib htag hne hbefore
    obtain ⟨hlen, hget⟩ := List.getElem?_eq_some_iff.mp hib
    unfold variant_dispatch_from_variant
    rw [hnil]
    rw [if_neg (by
      simp only [beq_iff_eq, Option.some.injEq]
      exact fun h => hne h.symm)]
    have hidx : api.builtins.findIdx?
        (fun x => vt_const_ord vt x.godot_shout_name == some tag) = some i := by
      rw [List.findIdx?_eq_some_iff_getElem]
      refine ⟨hlen, by simp [hget, htag], fun j hji => ?_⟩
      have hjlen : j < api.builtins.length := Nat.lt_trans hji hlen
      have hj : api.builtins[j]? = some api.builtins[j] :=
        List.getElem?_eq_getElem hjlen
      simpa using hbefore j hji _ hj
    rw [hidx]
  · intro tag hne hnone
    unfold variant_dispatch_from_variant
    rw [hnil]
    rw [if_neg (by
      simp only [beq_iff_eq, Option.some.injEq]
      exact fun h => hne h.symm)]
    have hidx : api.builtins.findIdx?
        (fun x => vt_const_ord vt x.godot_shout_name == some tag) = none := by
      rw [List.findIdx?_eq_none_iff]
      intro x hx
      simpa using hnone x hx
    rw [hidx]

/-- C8 witness: on the fixture API (`NIL = 0`, builtins `BOOL = 1`,
`INT = 2`), tag 0 dispatches to `Nil`, tag 2 to the second builtin arm, and
tag 5 to no arm (panic). -/
theorem variant_dispatch_spec_witness :
    variant_dispatch_from_variant demoVariantType demoApi 0 = some DispatchArm.nil ∧
      variant_dispatch_from_variant demoVariantType demoApi 2
        = some (DispatchArm.builtin 1) ∧
      variant_dispatch_from_variant demoVariantType demoApi 5 = none := by
  have h := variant_dispatch_spec demoVariantType demoApi 0 (by decide)
  refine ⟨h.2.2.2.1, ?_, h.2.2.2.2.2 5 (by decide) (by decide)⟩
  refine h.2.2.2.2.1 1 ⟨"int", "INT"⟩ 2 (by decide) (by decide) (by decide) ?_
  intro j hj bj hbj
  have hj0 : j = 0 := Nat.lt_one_iff.mp hj
  subst hj0
  have hc : demoApi.builtins[0]? = some (⟨"bool", "BOOL"⟩ : BuiltinClass) := by decide
  rw [hc] at hbj
  rw [← Option.some.inj hbj]
  decide

/-- C9: if no global enum in the API is named `VariantType`,
`make_variant_type_enum` fails process-fatally with the descriptive message
`"missing VariantType enum in API JSON"`; if one is found (and is
well-formed), the function returns without aborting, emitting the definition
when `is_definition` is set and the trait-impl block otherwise. -/
theorem variant_type_enum_required (api : ExtensionApi) (is_definition : Bool) :
    ((∀ e ∈ api.global_enums, e.name ≠ "VariantType") →
      make_variant_type_enum api is_definition =
        Except.error "missing VariantType enum in API JSON") ∧
    (∀ e, api.global_enums.find? (fun x => x.name == "VariantType") = some e →
      (e.is_bitfield && e.is_exhaustive) = false →
      engine_trait_impl_check e = Except.ok () →
      make_variant_type_enum api is_definition =
        Except.ok ⟨is_definition, !is_definition⟩) := by
  constructor
  · intro habsent
    unfold make_variant_type_enum
    rw [List.find?_eq_none.mpr (fun x hx => by simp [habsent x hx])]
  · intro e hfind hflags hcheck
    rw [show make_variant_type_enum api is_definition
        = make_enum_definition_with e is_definition (!is_definition) from by
      unfold make_variant_type_enum
      rw [hfind]]
    unfold make_enum_definition_with
    rw [hflags]
    cases is_definition with
    | true => simp
    | false => simp [hcheck, Except.map]

/-- C9 witness: the fixture API without `VariantType` aborts with the
message; the full fixture API yields the trait-impl block. -/
theorem variant_type_enum_required_witness :
    make_variant_type_enum demoApiNoVariantType true =
        Except.error "missing VariantType enum in API JSON" ∧
      make_variant_type_enum demoApi false = Except.ok ⟨false, true⟩ := by
  have h1 := variant_type_enum_required demoApiNoVariantType true
  have h2 := variant_type_enum_required demoApi false
  exact ⟨h1.1 (by decide), h2.2 demoVariantType (by decide) (by decide) rfl⟩

